import Mathlib

/-!
# Verification of the cdd-context core (scanner / cache / manifest differ)

Shallow embedding of the core algorithms of the `cdd_context` package:

* `scanner.py` — gitignore-style pattern matching (`_pattern_to_regex`,
  `_matches_pattern`, `_should_ignore`) and the guard branches of `scan`;
* `cache.py` — `CacheEntry.matches`, `Cache.get` / `check_status` / `put` /
  `clear`, the persisted-entry parse (`_load_entry`), the build manifest
  (`save_manifest` / `load_manifest`) and the diff (`compute_changes`).

Python strings are modelled as `String` (with `List Char` used inside the
glob matcher), dicts keyed by strings as lookup functions or association
lists, and sets as deduplicated lists.  File-system state is modelled
explicitly where a claim needs it.
-/

namespace CddContext

/-! ## Generic helpers: Python `sorted`, set-dedup, `str.split("/")` -/

/-- Code-point lexicographic strict order on character lists: this is how
Python compares `str` values (`"a" < "ab"`, `"a" < "b"`). -/
def charListLt : List Char → List Char → Bool
  | [], [] => false
  | [], _ :: _ => true
  | _ :: _, [] => false
  | a :: as, b :: bs => a < b || (a == b && charListLt as bs)

/-- Python string comparison `a < b`. -/
def strLt (a b : String) : Bool := charListLt a.data b.data

/-- Insert a string into a list sorted by `strLt` (keeps existing ties first,
as Python's stable sort does). -/
def insertSorted (x : String) : List String → List String
  | [] => [x]
  | y :: ys => if strLt y x then y :: insertSorted x ys else x :: y :: ys

/-- Python `sorted(...)` on a collection of strings. -/
def sortStrings : List String → List String
  | [] => []
  | x :: xs => insertSorted x (sortStrings xs)

/-- First-occurrence deduplication: the element order in which Python
iterates a `set` built by inserting the list's elements is unspecified, but
the *membership* is this.  Used to model sets of paths. -/
def dedupAcc (seen : List String) : List String → List String
  | [] => []
  | x :: xs => if x ∈ seen then dedupAcc seen xs else x :: dedupAcc (x :: seen) xs

/-- Deduplicate a list of strings keeping first occurrences. -/
def dedup (l : List String) : List String := dedupAcc [] l

/-- Python `s.split("/")` on a character list: never returns `[]`
(`"".split("/") == [""]`). -/
def splitSlash : List Char → List (List Char)
  | [] => [[]]
  | c :: cs =>
    match splitSlash cs with
    | [] => [[]]
    | p :: ps => if c == '/' then [] :: p :: ps else (c :: p) :: ps

/-- Python `"/".join(parts)`. -/
def joinSlash : List (List Char) → List Char
  | [] => []
  | [p] => p
  | p :: ps => p ++ '/' :: joinSlash ps

/-! ## `scanner._pattern_to_regex`

The Python function emits a regex *string* by concatenating fixed fragments.
We embed the output as a token list, one token per emitted fragment, and give
the tokens the matching semantics Python's `re` gives those fragments.  The
only regex-special output the translation can produce are the fixed fragments
below plus the raw `[` / `]` characters it passes through; every other
character is emitted through `re.escape` and matches itself literally. -/

/-- One fragment of the regex emitted by `_pattern_to_regex`. -/
inductive GTok where
  /-- an `re.escape`d character: matches exactly that character -/
  | lit (c : Char)
  /-- `[^/]*` (from a single `*`) -/
  | star
  /-- `.*` (from a bare `**`) -/
  | dstar
  /-- `(?:.*/)?` (from a leading `**/`) -/
  | optdirs
  /-- `[^/]` (from `?`) -/
  | qmark
  /-- a raw `[` passed through unescaped -/
  | lbrack
  /-- a raw `]` passed through unescaped -/
  | rbrack
deriving DecidableEq

/-- `_pattern_to_regex`: the while-loop over the pattern, one token per
appended fragment.  Mirrors `scanner.py` lines 127–162. -/
def patternToRegex : List Char → List GTok
  | [] => []
  | '*' :: '*' :: '/' :: rest => GTok.optdirs :: patternToRegex rest
  | '*' :: '*' :: rest => GTok.dstar :: patternToRegex rest
  | '*' :: rest => GTok.star :: patternToRegex rest
  | '?' :: rest => GTok.qmark :: patternToRegex rest
  | '[' :: rest => GTok.lbrack :: patternToRegex rest
  | ']' :: rest => GTok.rbrack :: patternToRegex rest
  | '\\' :: c :: rest => GTok.lit c :: patternToRegex rest
  | ['\\'] => [GTok.lit '\\']
  | c :: rest => GTok.lit c :: patternToRegex rest

/-- A node of the regex as Python's `re` parses the emitted string: like
`GTok` but with a `[...]` character class grouped into one node (`cls`), a
stray `]` read back as a literal (that is what `re` does with an unmatched
closing bracket), and `bad` for the corners where `re.compile` would raise
(`re.error` on an unterminated class) or where a non-literal fragment lands
inside a class — no claim exercises those. -/
inductive RTok where
  | lit (c : Char)
  | star
  | dstar
  | optdirs
  | qmark
  | cls (cs : List Char)
  | bad
deriving DecidableEq

/-- Group the emitted fragments the way `re` parses the concatenated string:
outside a class (`mode = none`) fragments are kept; `[` opens a class
(`mode = some acc`) that collects literal characters until `]`. -/
def reGroup : Option (List Char) → List GTok → List RTok
  | none, [] => []
  | none, GTok.lbrack :: ts => reGroup (some []) ts
  | none, GTok.rbrack :: ts => RTok.lit ']' :: reGroup none ts
  | none, GTok.lit c :: ts => RTok.lit c :: reGroup none ts
  | none, GTok.star :: ts => RTok.star :: reGroup none ts
  | none, GTok.dstar :: ts => RTok.dstar :: reGroup none ts
  | none, GTok.optdirs :: ts => RTok.optdirs :: reGroup none ts
  | none, GTok.qmark :: ts => RTok.qmark :: reGroup none ts
  | some acc, GTok.rbrack :: ts => RTok.cls acc.reverse :: reGroup none ts
  | some acc, GTok.lit c :: ts => reGroup (some (c :: acc)) ts
  | some _, _ => [RTok.bad]

/-- The regex `_pattern_to_regex` hands to `re.match`, as parsed by `re`. -/
def compileRegex (pattern : List Char) : List RTok :=
  reGroup none (patternToRegex pattern)

/-- The suffixes of `s` reachable by letting `[^/]*` consume a slash-free
prefix (the whole of `s` included). -/
def starTails : List Char → List (List Char)
  | [] => [[]]
  | d :: ds => (d :: ds) :: (if d == '/' then [] else starTails ds)

/-- The suffixes of `s` that start right after some `/` in `s` (what remains
for the tail regex after `.*/` consumes through that slash). -/
def slashTails : List Char → List (List Char)
  | [] => []
  | d :: ds => (if d == '/' then [ds] else []) ++ slashTails ds

/-- Matching semantics of the emitted regex against a full string
(`re.match(regex + "$", s)`: anchored at the start by `re.match` and at the
end by the appended `$`). -/
def tokMatch : List RTok → List Char → Bool
  | [], s => s.isEmpty
  | RTok.lit c :: ts, s =>
    match s with
    | [] => false
    | d :: ds => c == d && tokMatch ts ds
  | RTok.qmark :: ts, s =>
    match s with
    | [] => false
    | d :: ds => d != '/' && tokMatch ts ds
  | RTok.cls cs :: ts, s =>
    match s with
    | [] => false
    | d :: ds => cs.contains d && tokMatch ts ds
  | RTok.star :: ts, s => (starTails s).any (fun b => tokMatch ts b)
  | RTok.dstar :: ts, s => s.tails.any (fun b => tokMatch ts b)
  | RTok.optdirs :: ts, s =>
    tokMatch ts s || (slashTails s).any (fun b => tokMatch ts b)
  | RTok.bad :: _, _ => false

/-! ## `scanner._matches_pattern` and `scanner._should_ignore` -/

/-- `_matches_pattern` (scanner.py lines 76–124) on character lists.
`re.match(regex + "$", s)` anchors at both ends, which is `tokMatch` on the
whole candidate. -/
def matchesPattern (path pattern : List Char) : Bool :=
  -- path.replace("\\", "/")
  let path := path.map (fun c => if c == '\\' then '/' else c)
  if pattern.getLast? == some '/' then
    -- directory-only pattern
    let pat := pattern.dropLast
    if path == pat || (pat ++ ['/']).isPrefixOf path then true
    else decide (pat ∈ splitSlash path)
  else
    let anchored := pattern.head? == some '/'
    let pat := if anchored then pattern.tail else pattern
    let toks := compileRegex pat
    if anchored then tokMatch toks path
    else
      let parts := splitSlash path
      tokMatch toks path
        || tokMatch toks ((parts.getLast?).getD [])
        || (List.range parts.length).any (fun i => tokMatch toks (joinSlash (parts.drop i)))

/-- `_matches_pattern` on strings. -/
def matchesPatternS (path pattern : String) : Bool :=
  matchesPattern path.data pattern.data

/-- Whether a pattern line is a negation (`pattern.startswith("!")`). -/
def isNegation (pattern : String) : Bool := pattern.data.head? == some '!'

/-- The pattern with its leading `!` stripped when negated
(`pattern[1:]`), the pattern itself otherwise. -/
def strippedOf (pattern : String) : String :=
  if isNegation pattern then ⟨pattern.data.tail⟩ else pattern

/-- One iteration of the pattern loop in `_should_ignore`
(scanner.py lines 170–178). -/
def shouldIgnoreStep (path : String) (ignored : Bool) (pattern : String) : Bool :=
  if isNegation pattern then
    if matchesPatternS path (strippedOf pattern) then false else ignored
  else
    if matchesPatternS path pattern then true else ignored

/-- `_should_ignore(path, patterns)` (scanner.py lines 165–179): fold the
pattern list left-to-right starting from `ignored = False`. -/
def shouldIgnore (path : String) (patterns : List String) : Bool :=
  patterns.foldl (shouldIgnoreStep path) false

/-- A pattern line *touches* a path when the loop body of `_should_ignore`
assigns to `ignored` for it: a plain line that matches, or a negation whose
un-negated form matches. -/
def touches (path pattern : String) : Bool :=
  matchesPatternS path (strippedOf pattern)

/-! ## `scanner.scan`: the guard branches

The happy path of `scan` shells out to git or walks the real directory tree;
the claims about `scan` only concern the two guard branches, so the embedding
takes the result of the rest of the function as an explicit argument
(`fullScan`) and models only the guards (scanner.py lines 336–346). -/

/-- `ScanResult` dataclass with its field defaults (scanner.py lines 17–23). -/
structure ScanResult where
  files : List String := []
  ignore_mode : String := "best_effort"
  warnings : List String := []
  priority_paths : List String := []
deriving DecidableEq

/-- The file-system facts the guards of `scan` consult. -/
structure FS where
  pathExists : String → Bool
  isDir : String → Bool

/-- `scan(root)` (scanner.py lines 322–378): the two guard branches, with the
rest of the function abstracted as `fullScan`. -/
def scan (fs : FS) (root : String) (fullScan : ScanResult) : ScanResult :=
  if !(fs.pathExists root) then
    { warnings := ["Root directory does not exist: " ++ root] }
  else if !(fs.isDir root) then
    { warnings := ["Root is not a directory: " ++ root] }
  else fullScan

/-! ## `cache.py`: key, entry, persisted format, get / put / check_status

The artifact payload (`summary`, a Python dict) is opaque to every cache
operation; it is modelled as an association list of strings.  A persisted
cache file is modelled by `FileData`: either bytes that are not valid JSON,
or a JSON object whose string fields, summary and approx-token count are
explicit, so that `CacheEntry(**data)`'s failure on missing required fields
or unknown keys is captured by `parseEntry`.  The map from a source path to
its cache file (`_cache_file`, a truncated SHA-256 of the path) is modelled
by keying the store with the path itself. -/

/-- Opaque artifact payload (a Python dict in the source). -/
abbrev Summary := List (String × String)

/-- `CacheKey` dataclass (cache.py lines 17–23). -/
structure CacheKey where
  source_hash : String
  prompt_hash : String
  backend_id : String
  tool_version : String
deriving DecidableEq

/-- `CacheEntry` dataclass (cache.py lines 26–36). -/
structure CacheEntry where
  path : String
  source_hash : String
  prompt_hash : String
  backend_id : String
  tool_version : String
  summary : Summary
  timestamp : String
  approx_tokens : Int := 0
deriving DecidableEq

/-- `CacheEntry.matches` (cache.py lines 38–48): field-by-field comparison in
fixed order, returning `(matches, staleness_reason)`. -/
def CacheEntry.matches (e : CacheEntry) (key : CacheKey) : Bool × Option String :=
  if e.source_hash ≠ key.source_hash then (false, some "source_changed")
  else if e.prompt_hash ≠ key.prompt_hash then (false, some "prompt_changed")
  else if e.backend_id ≠ key.backend_id then (false, some "backend_changed")
  else if e.tool_version ≠ key.tool_version then (false, some "tool_changed")
  else (true, none)

/-- `CacheResult` dataclass with its defaults (cache.py lines 51–57). -/
structure CacheResult where
  cache_hit : Bool
  summary : Option Summary := none
  staleness_reason : Option String := none
  is_stale : Bool := false
deriving DecidableEq

/-- `CacheStats` dataclass (cache.py lines 60–65). -/
structure CacheStats where
  hits : Nat := 0
  misses : Nat := 0
  tokens_saved : Int := 0
deriving DecidableEq

/-- On-disk content of one cache file. -/
inductive FileData where
  /-- bytes `json.load` rejects (`JSONDecodeError`) -/
  | notJson
  /-- a JSON object: string-valued fields, plus the summary dict and the
  approx-token number when present -/
  | obj (fields : List (String × String)) (summary : Option Summary)
      (approx_tokens : Option Int)
deriving DecidableEq

/-- The required string-valued fields of `CacheEntry`
(`approx_tokens` has a default, `summary` is tracked separately). -/
def requiredStrKeys : List String :=
  ["path", "source_hash", "prompt_hash", "backend_id", "tool_version", "timestamp"]

/-- `CacheEntry(**data)` on a decoded file (cache.py line 104): succeeds only
when every required field is present and no unknown keyword remains
(otherwise Python raises `TypeError`, caught by `_load_entry`);
`approx_tokens` defaults to 0. -/
def parseEntry : FileData → Option CacheEntry
  | FileData.notJson => none
  | FileData.obj fields summary approx =>
    let keys := fields.map Prod.fst
    if requiredStrKeys.all (fun k => decide (k ∈ keys))
        && keys.all (fun k => decide (k ∈ requiredStrKeys)) then
      match fields.lookup "path", fields.lookup "source_hash",
          fields.lookup "prompt_hash", fields.lookup "backend_id",
          fields.lookup "tool_version", fields.lookup "timestamp", summary with
      | some p, some sh, some ph, some b, some tv, some ts, some sm =>
        some ⟨p, sh, ph, b, tv, sm, ts, approx.getD 0⟩
      | _, _, _, _, _, _, _ => none
    else none

/-- `json.dump(asdict(entry))` (cache.py line 122): the persisted form of an
entry. -/
def encodeEntry (e : CacheEntry) : FileData :=
  FileData.obj
    [("path", e.path), ("source_hash", e.source_hash),
     ("prompt_hash", e.prompt_hash), ("backend_id", e.backend_id),
     ("tool_version", e.tool_version), ("timestamp", e.timestamp)]
    (some e.summary) (some e.approx_tokens)

/-- A `Cache` instance: the cache directory's per-path contents plus the
in-memory statistics. -/
structure CacheState where
  store : String → Option FileData
  stats : CacheStats

/-- `Cache._load_entry` (cache.py lines 95–107): absent file → `None`;
parse failure → `None` (the `except` clause); otherwise the entry. -/
def loadEntry (store : String → Option FileData) (path : String) : Option CacheEntry :=
  match store path with
  | none => none
  | some fd => parseEntry fd

/-- Result shape of `Cache.check_status`. -/
structure StatusResult where
  is_stale : Bool
  staleness_reason : Option String
deriving DecidableEq

/-- `Cache.check_status` (cache.py lines 132–158). -/
def Cache.check_status (st : CacheState)
    (path source_hash prompt_hash backend_id tool_version : String) : StatusResult :=
  let key : CacheKey := ⟨source_hash, prompt_hash, backend_id, tool_version⟩
  match loadEntry st.store path with
  | none => ⟨true, some "not_cached"⟩
  | some entry =>
    let (m, reason) := entry.matches key
    ⟨!m, reason⟩

/-- `Cache.get` (cache.py lines 160–201): result plus the cache state with
its statistics updated. -/
def Cache.get (st : CacheState)
    (path source_hash prompt_hash backend_id tool_version : String) :
    CacheResult × CacheState :=
  let key : CacheKey := ⟨source_hash, prompt_hash, backend_id, tool_version⟩
  match loadEntry st.store path with
  | none =>
    ({ cache_hit := false, is_stale := true, staleness_reason := some "not_cached" },
     { st with stats := { st.stats with misses := st.stats.misses + 1 } })
  | some entry =>
    let (m, reason) := entry.matches key
    if m then
      ({ cache_hit := true, summary := some entry.summary },
       { st with stats := { st.stats with
          hits := st.stats.hits + 1,
          tokens_saved := st.stats.tokens_saved + entry.approx_tokens } })
    else
      ({ cache_hit := false, is_stale := true, staleness_reason := reason },
       { st with stats := { st.stats with misses := st.stats.misses + 1 } })

/-- `Cache.put` (cache.py lines 203–226) composed with `_save_entry`: builds
the entry and persists it under its path, replacing any prior file.  The
wall-clock timestamp `datetime.now(...).isoformat()` is an explicit
argument. -/
def Cache.put (st : CacheState)
    (path source_hash prompt_hash backend_id tool_version : String)
    (summary : Summary) (approx_tokens : Int) (now : String) : CacheState :=
  let entry : CacheEntry :=
    ⟨path, source_hash, prompt_hash, backend_id, tool_version, summary, now, approx_tokens⟩
  { st with store := fun p => if p = path then some (encodeEntry entry) else st.store p }

/-! ## `cache.py`: clear, build manifest, compute_changes -/

/-- Whether `pathlib.Path.glob("*.json")` matches a file name (`fnmatch`:
`*` matches any run of characters in the name, so the glob holds exactly for
names ending in `.json`). -/
def matchesJsonGlob (name : String) : Bool :=
  List.isSuffixOf ".json".data name.data

/-- `Cache.clear` (cache.py lines 275–292) on the cache directory's listing:
every `*.json` file is unlinked and counted; other files remain.  (The
missing-directory early return and per-file `OSError` tolerance are not
exercised by any claim.) -/
def Cache.clear (dirFiles : List String) : Nat × List String :=
  ((dirFiles.filter matchesJsonGlob).length,
   dirFiles.filter (fun n => !matchesJsonGlob n))

/-- `MANIFEST_FILENAME` (cache.py line 325). -/
def MANIFEST_FILENAME : String := "last_build.json"

/-- One element of a manifest's `files` list: `{path, source_hash}`. -/
structure FileRec where
  path : String
  source_hash : String
deriving DecidableEq

/-- `BuildManifest` dataclass (cache.py lines 328–335). -/
structure BuildManifest where
  schema_version : Int
  tool_version : String
  ignore_mode : String
  scan_hash : String
  files : List FileRec
deriving DecidableEq

/-- The directory listing after `save_manifest` (cache.py lines 376–409):
`os.replace` writes `last_build.json` into the directory (overwriting any
prior one). -/
def save_manifest_names (dirFiles : List String) : List String :=
  if decide (MANIFEST_FILENAME ∈ dirFiles) then dirFiles
  else dirFiles ++ [MANIFEST_FILENAME]

/-- `load_manifest` (cache.py lines 412–423) against a directory listing:
returns `None` when `last_build.json` is absent, otherwise whatever reading
and decoding that file yields (`read` covers `json.load` +
`BuildManifest.from_dict` with the `except` clause). -/
def load_manifest_from (dirFiles : List String)
    (read : String → Option BuildManifest) : Option BuildManifest :=
  if decide (MANIFEST_FILENAME ∈ dirFiles) then read MANIFEST_FILENAME else none

/-- `ChangeSet` dataclass (cache.py lines 361–373). -/
structure ChangeSet where
  prev_scan_hash : String
  cur_scan_hash : String
  ignore_mode : String
  added : List String
  modified : List String
  deleted : List String
  renamed : List (String × String)
deriving DecidableEq

/-- `{f["path"]: f["source_hash"] for f in files}` — a later duplicate path
overwrites an earlier one. -/
def dictOf (files : List FileRec) : String → Option String :=
  fun p => ((files.filter (fun f => f.path == p)).getLast?).map (fun f => f.source_hash)

/-- The distinct paths of a file list, i.e. the membership of the Python
`set` of its keys. -/
def pathsOf (files : List FileRec) : List String :=
  dedup (files.map (fun f => f.path))

/-- `added_paths = cur_paths - prev_paths` as a list of distinct paths. -/
def addedSet (prev : BuildManifest) (cur_files : List FileRec) : List String :=
  (pathsOf cur_files).filter (fun p => !decide (p ∈ pathsOf prev.files))

/-- `deleted_paths = prev_paths - cur_paths` as a list of distinct paths. -/
def deletedSet (prev : BuildManifest) (cur_files : List FileRec) : List String :=
  (pathsOf prev.files).filter (fun p => !decide (p ∈ pathsOf cur_files))

/-- `deleted_by_hash = {prev_hashes[p]: p for p in deleted_paths}`
(cache.py line 462) as a lookup function: the value for a hash is the *last*
path in the set's iteration order `delOrder` carrying that hash (a later
insertion overwrites an earlier one). -/
def deletedByHash (delOrder : List String) (prevH : String → Option String) :
    String → Option String :=
  fun h => (delOrder.filter (fun p => prevH p == some h)).getLast?

/-- Accumulator of the rename-matching loop (cache.py lines 464–474). -/
structure RenameAcc where
  renamed : List (String × String) := []
  matched_added : List String := []
  matched_deleted : List String := []

/-- One iteration of `for added_path in sorted(added_paths)`
(cache.py lines 467–474). -/
def renameStep (curH dbh : String → Option String)
    (acc : RenameAcc) (added_path : String) : RenameAcc :=
  match curH added_path with
  | none => acc  -- unreachable: every added path is a current path
  | some added_hash =>
    match dbh added_hash with
    | none => acc
    | some old_path =>
      if decide (old_path ∈ acc.matched_deleted) then acc
      else
        { renamed := acc.renamed ++ [(old_path, added_path)],
          matched_added := acc.matched_added ++ [added_path],
          matched_deleted := acc.matched_deleted ++ [old_path] }

/-- State of the rename-matching loop after iterating over the sorted added
paths (cache.py lines 464–474). -/
def renameAccOf (prev : BuildManifest) (cur_files : List FileRec)
    (dbh : String → Option String) : RenameAcc :=
  (sortStrings (addedSet prev cur_files)).foldl
    (renameStep (dictOf cur_files) dbh) {}

/-- `compute_changes` (cache.py lines 426–488) with the
`deleted_by_hash` dictionary abstracted as a lookup function `dbh`. -/
def computeChangesWith (prev : BuildManifest) (cur_files : List FileRec)
    (cur_scan_hash cur_ignore_mode : String)
    (dbh : String → Option String) : ChangeSet :=
  let prevH := dictOf prev.files
  let curH := dictOf cur_files
  let commonList := (pathsOf prev.files).filter
    (fun p => decide (p ∈ pathsOf cur_files))
  let modified := sortStrings (commonList.filter (fun p => prevH p != curH p))
  let acc := renameAccOf prev cur_files dbh
  let added := sortStrings
    ((sortStrings (addedSet prev cur_files)).filter
      (fun p => !decide (p ∈ acc.matched_added)))
  let deleted := sortStrings
    ((deletedSet prev cur_files).filter (fun p => !decide (p ∈ acc.matched_deleted)))
  { prev_scan_hash := prev.scan_hash,
    cur_scan_hash := cur_scan_hash,
    ignore_mode := cur_ignore_mode,
    added := added, modified := modified, deleted := deleted,
    renamed := acc.renamed }

/-- `compute_changes` (cache.py lines 426–488).  The iteration order of the
Python `set` `deleted_paths` in the `deleted_by_hash` comprehension is not
fixed by the language, so it is an explicit argument `delOrder` (a run of the
program corresponds to some enumeration of the set). -/
def compute_changes (prev : BuildManifest) (cur_files : List FileRec)
    (cur_scan_hash cur_ignore_mode : String) (delOrder : List String) : ChangeSet :=
  computeChangesWith prev cur_files cur_scan_hash cur_ignore_mode
    (deletedByHash delOrder (dictOf prev.files))

/-- `delOrder` is a legitimate iteration order of the Python set
`deleted_paths`: an enumeration without repetition with exactly the members
of `deletedSet` (stated through sorting so that the property is directly
computable). -/
def IsDelOrder (prev : BuildManifest) (cur_files : List FileRec)
    (delOrder : List String) : Prop :=
  delOrder.Nodup ∧ sortStrings delOrder = sortStrings (deletedSet prev cur_files)

instance (prev : BuildManifest) (cur_files : List FileRec) (delOrder : List String) :
    Decidable (IsDelOrder prev cur_files delOrder) := by
  unfold IsDelOrder; infer_instance

/-! ## Lemmas about the emitted regex's matching semantics -/

/-- `starTails` is exactly the suffixes left after deleting a slash-free
front part. -/
theorem mem_starTails (s b : List Char) :
    b ∈ starTails s ↔ ∃ a, s = a ++ b ∧ ∀ c ∈ a, c ≠ '/' := by
  induction s with
  | nil =>
    constructor
    · intro h
      simp only [starTails, List.mem_singleton] at h
      exact ⟨[], by simp [h], by simp⟩
    · rintro ⟨a, ha, -⟩
      cases a with
      | nil => simp at ha; simp [starTails, ha]
      | cons x xs => simp at ha
  | cons d ds ih =>
    by_cases hd : d = '/'
    · subst hd
      constructor
      · intro h
        simp only [starTails, if_pos rfl] at h
        simp only [beq_self_eq_true, if_true, List.mem_singleton] at h
        exact ⟨[], by simp [h], by simp⟩
      · rintro ⟨a, ha, hns⟩
        cases a with
        | nil =>
          simp at ha
          simp [starTails, ha.symm]
        | cons x xs =>
          rw [List.cons_append] at ha
          have hx : x = '/' := (List.cons.injEq _ _ _ _ ▸ ha).1.symm
          exact absurd hx (hns x (List.mem_cons_self x xs))
    · have hbeq : (d == '/') = false := by simp [hd]
      constructor
      · intro h
        simp only [starTails, hbeq, if_false, List.mem_cons] at h
        rcases h with h | h
        · exact ⟨[], by simp [h], by simp⟩
        · obtain ⟨a, rfl, hns⟩ := ih.1 h
          refine ⟨d :: a, rfl, ?_⟩
          intro c hc
          rcases List.mem_cons.1 hc with rfl | hc
          · exact hd
          · exact hns c hc
      · rintro ⟨a, ha, hns⟩
        simp only [starTails, hbeq, if_false, List.mem_cons]
        cases a with
        | nil => left; simpa using ha.symm
        | cons x xs =>
          rw [List.cons_append] at ha
          have hx := (List.cons.injEq _ _ _ _ ▸ ha)
          right
          exact ih.2 ⟨xs, hx.2, fun c hc => hns c (List.mem_cons_of_mem x hc)⟩

/-- `slashTails` is exactly the suffixes that follow some `/`. -/
theorem mem_slashTails (s b : List Char) :
    b ∈ slashTails s ↔ ∃ a, s = a ++ '/' :: b := by
  induction s with
  | nil =>
    simp only [slashTails, List.not_mem_nil, false_iff]
    rintro ⟨a, ha⟩
    cases a <;> simp at ha
  | cons d ds ih =>
    by_cases hd : d = '/'
    · subst hd
      have : slashTails ('/' :: ds) = ds :: slashTails ds := by
        simp [slashTails]
      rw [this, List.mem_cons, ih]
      constructor
      · rintro (rfl | ⟨a, rfl⟩)
        · exact ⟨[], rfl⟩
        · exact ⟨'/' :: a, rfl⟩
      · rintro ⟨a, ha⟩
        cases a with
        | nil => left; exact ((List.cons.injEq _ _ _ _ ▸ ha).2).symm
        | cons x xs =>
          rw [List.cons_append] at ha
          right
          exact ⟨xs, (List.cons.injEq _ _ _ _ ▸ ha).2⟩
    · have : slashTails (d :: ds) = slashTails ds := by
        simp [slashTails, hd]
      rw [this, ih]
      constructor
      · rintro ⟨a, rfl⟩
        exact ⟨d :: a, rfl⟩
      · rintro ⟨a, ha⟩
        cases a with
        | nil => exact absurd ((List.cons.injEq _ _ _ _ ▸ ha).1) hd
        | cons x xs =>
          rw [List.cons_append] at ha
          exact ⟨xs, (List.cons.injEq _ _ _ _ ▸ ha).2⟩

/-- Semantics of an escaped literal: it consumes exactly itself. -/
theorem tokMatch_lit_iff (c : Char) (ts : List RTok) (s : List Char) :
    tokMatch (RTok.lit c :: ts) s = true ↔
      ∃ b, s = c :: b ∧ tokMatch ts b = true := by
  cases s with
  | nil => simp [tokMatch]
  | cons d ds =>
    simp only [tokMatch, Bool.and_eq_true, beq_iff_eq]
    constructor
    · rintro ⟨rfl, h⟩
      exact ⟨ds, rfl, h⟩
    · rintro ⟨b, hb, h⟩
      obtain ⟨rfl, rfl⟩ := List.cons.injEq _ _ _ _ ▸ hb
      exact ⟨rfl, h⟩

/-- Semantics of `[^/]` (from `?`): one character that is not a slash. -/
theorem tokMatch_qmark_iff (ts : List RTok) (s : List Char) :
    tokMatch (RTok.qmark :: ts) s = true ↔
      ∃ c b, s = c :: b ∧ c ≠ '/' ∧ tokMatch ts b = true := by
  cases s with
  | nil => simp [tokMatch]
  | cons d ds =>
    simp only [tokMatch, Bool.and_eq_true, bne_iff_ne, ne_eq]
    constructor
    · rintro ⟨hne, h⟩
      exact ⟨d, ds, rfl, hne, h⟩
    · rintro ⟨c, b, hb, hne, h⟩
      obtain ⟨rfl, rfl⟩ := List.cons.injEq _ _ _ _ ▸ hb
      exact ⟨hne, h⟩

/-- Semantics of `[^/]*` (from a single `*`): it consumes any slash-free
front part. -/
theorem tokMatch_star_iff (ts : List RTok) (s : List Char) :
    tokMatch (RTok.star :: ts) s = true ↔
      ∃ a b, s = a ++ b ∧ (∀ c ∈ a, c ≠ '/') ∧ tokMatch ts b = true := by
  simp only [tokMatch, List.any_eq_true]
  constructor
  · rintro ⟨b, hb, h⟩
    obtain ⟨a, rfl, hns⟩ := (mem_starTails s b).1 hb
    exact ⟨a, b, rfl, hns, h⟩
  · rintro ⟨a, b, rfl, hns, h⟩
    exact ⟨b, (mem_starTails _ b).2 ⟨a, rfl, hns⟩, h⟩

/-- Semantics of `.*` (from a bare `**`): it consumes any front part,
slashes included. -/
theorem tokMatch_dstar_iff (ts : List RTok) (s : List Char) :
    tokMatch (RTok.dstar :: ts) s = true ↔
      ∃ a b, s = a ++ b ∧ tokMatch ts b = true := by
  simp only [tokMatch, List.any_eq_true]
  constructor
  · rintro ⟨b, hb, h⟩
    obtain ⟨a, rfl⟩ := (List.mem_tails b s).1 hb
    exact ⟨a, b, rfl, h⟩
  · rintro ⟨a, b, rfl, h⟩
    exact ⟨b, (List.mem_tails b (a ++ b)).2 ⟨a, rfl⟩, h⟩

/-- Semantics of `(?:.*/)?` (from a leading `**/`): either nothing, or
everything up to and including some slash. -/
theorem tokMatch_optdirs_iff (ts : List RTok) (s : List Char) :
    tokMatch (RTok.optdirs :: ts) s = true ↔
      tokMatch ts s = true ∨ ∃ a b, s = a ++ '/' :: b ∧ tokMatch ts b = true := by
  simp only [tokMatch, Bool.or_eq_true, List.any_eq_true]
  apply or_congr Iff.rfl
  constructor
  · rintro ⟨b, hb, h⟩
    obtain ⟨a, rfl⟩ := (mem_slashTails s b).1 hb
    exact ⟨a, b, rfl, h⟩
  · rintro ⟨a, b, rfl, h⟩
    exact ⟨b, (mem_slashTails _ b).2 ⟨a, rfl⟩, h⟩

/-! ## Lemmas about `_should_ignore` -/

/-- The loop body of `_should_ignore` assigns `not negated` when the pattern
touches the path and leaves the accumulator alone otherwise. -/
theorem shouldIgnoreStep_eq (path : String) (ig : Bool) (pat : String) :
    shouldIgnoreStep path ig pat =
      if touches path pat then !isNegation pat else ig := by
  unfold shouldIgnoreStep touches
  by_cases h : isNegation pat = true
  · simp only [h, if_true]
    by_cases hm : matchesPatternS path (strippedOf pat) = true <;> simp [hm]
  · have hs : strippedOf pat = pat := by
      unfold strippedOf; simp [h]
    simp only [h, if_false, hs]
    by_cases hm : matchesPatternS path pat = true <;> simp [hm, h]

/-- Appending one pattern line: the new line wins whenever it touches the
path. -/
theorem shouldIgnore_concat (path pat : String) (patterns : List String) :
    shouldIgnore path (patterns ++ [pat]) =
      if touches path pat then !isNegation pat else shouldIgnore path patterns := by
  unfold shouldIgnore
  rw [List.foldl_append]
  simp [shouldIgnoreStep_eq]

/-- `_should_ignore` is decided by the last pattern line that touches the
path: `False` when none does, otherwise `True` iff that line is not a
negation. -/
theorem shouldIgnore_eq_lastTouch (path : String) (patterns : List String) :
    shouldIgnore path patterns =
      (match (patterns.filter (touches path)).getLast? with
       | none => false
       | some q => !isNegation q) := by
  induction patterns using List.reverseRecOn with
  | nil => rfl
  | append_singleton l a ih =>
    rw [shouldIgnore_concat, List.filter_append]
    by_cases h : touches path a
    · simp [h, List.getLast?_concat]
    · simp [h, ih]

/-- **C1.** For every ordered list of ignore-pattern lines and every path,
the `_should_ignore` decision is determined by the last pattern in the list
that matches the path (negations included): it is `False` when no line
matches, and otherwise `True` exactly when the last matching line is plain;
in particular appending a negation pattern whose un-negated form matches the
path forces the decision to `False` (even after a prior matching plain
pattern), and appending a plain matching pattern forces it to `True` (even
after a matching negation). -/
theorem C1_should_ignore_last_match_wins (path : String) :
    (∀ patterns : List String,
      shouldIgnore path patterns =
        (match (patterns.filter (touches path)).getLast? with
         | none => false
         | some q => !isNegation q)) ∧
    (∀ (patterns : List String) (pat : String),
      isNegation pat = true → matchesPatternS path (strippedOf pat) = true →
        shouldIgnore path (patterns ++ [pat]) = false) ∧
    (∀ (patterns : List String) (pat : String),
      isNegation pat = false → matchesPatternS path pat = true →
        shouldIgnore path (patterns ++ [pat]) = true) := by
  refine ⟨shouldIgnore_eq_lastTouch path, ?_, ?_⟩
  · intro patterns pat hneg hm
    rw [shouldIgnore_concat]
    have ht : touches path pat = true := hm
    simp [ht, hneg]
  · intro patterns pat hneg hm
    rw [shouldIgnore_concat]
    have hs : strippedOf pat = pat := by
      unfold strippedOf; simp [hneg]
    have ht : touches path pat = true := by
      unfold touches; rw [hs]; exact hm
    simp [ht, hneg]

/-- Witness for C1: `*.py` ignores `a.py` until `!a.py` is appended, and a
negation is overridden by a later plain match. -/
theorem C1_witness :
    shouldIgnore "a.py" (["*.py"] ++ ["!a.py"]) = false ∧
    shouldIgnore "src/x.py" (["!x.py"] ++ ["*.py"]) = true := by
  constructor
  · exact (C1_should_ignore_last_match_wins "a.py").2.1 ["*.py"] "!a.py"
      (by decide) (by decide)
  · exact (C1_should_ignore_last_match_wins "src/x.py").2.2 ["!x.py"] "*.py"
      (by decide) (by decide)

/-! ## C9: scan on a bad root -/

/-- **C9.** For every root that does not exist or is not a directory, `scan`
returns (rather than raising — the embedding is total by construction) a
result with no files, no priority paths, and at least one warning, whatever
the rest of the scan would have produced. -/
theorem C9_scan_bad_root (fs : FS) (root : String) (fullScan : ScanResult)
    (h : fs.pathExists root = false ∨ fs.isDir root = false) :
    (scan fs root fullScan).files = [] ∧
    (scan fs root fullScan).priority_paths = [] ∧
    (scan fs root fullScan).warnings ≠ [] := by
  unfold scan
  rcases h with h | h
  · simp [h]
  · rcases hex : fs.pathExists root <;> simp [h, hex]

/-- Witness for C9 at a concrete missing root. -/
theorem C9_witness :
    (scan ⟨fun _ => false, fun _ => false⟩ "missing"
        ⟨["a.py"], "git", [], ["a.py"]⟩).files = [] ∧
    (scan ⟨fun _ => false, fun _ => false⟩ "missing"
        ⟨["a.py"], "git", [], ["a.py"]⟩).priority_paths = [] ∧
    (scan ⟨fun _ => false, fun _ => false⟩ "missing"
        ⟨["a.py"], "git", [], ["a.py"]⟩).warnings ≠ [] :=
  C9_scan_bad_root ⟨fun _ => false, fun _ => false⟩ "missing"
    ⟨["a.py"], "git", [], ["a.py"]⟩ (Or.inl rfl)

/-! ## C8: the glob-to-regex translation -/

/-- Counterexample to C8 as stated: `[` and `]` are regex metacharacters that
occur literally in the pattern `[ab]`, yet the translated regex is not their
escaped form — it matches the single character `a` and fails to match the
literal string `[ab]` itself. -/
theorem C8_counterexample :
    tokMatch (compileRegex "[ab]".data) "a".data = true ∧
    tokMatch (compileRegex "[ab]".data) "[ab]".data = false := by
  decide

/-- **C8 (amended).** In the glob-to-regex translation used for pattern
matching: a leading `**/` becomes `(?:.*/)?`, optionally matching zero or
more leading directories; a bare `**` becomes `.*`, matching anything
including `/`; a single `*` becomes `[^/]*`, matching anything except `/`;
`?` becomes `[^/]`, matching one non-`/` character; a backslash escapes the
following literal character; and every literal occurrence of `.` and of any
other regex metacharacter **except `[` and `]`** is escaped so that it
matches only itself — `[` and `]` are passed through unescaped, so that they
form a regex character class rather than matching themselves. -/
theorem C8_glob_regex_translation_amended :
    (∀ rest, compileRegex ('*' :: '*' :: '/' :: rest) = RTok.optdirs :: compileRegex rest) ∧
    (∀ ts s, tokMatch (RTok.optdirs :: ts) s = true ↔
        tokMatch ts s = true ∨ ∃ a b, s = a ++ '/' :: b ∧ tokMatch ts b = true) ∧
    (compileRegex ['*', '*'] = [RTok.dstar] ∧ ∀ s, tokMatch [RTok.dstar] s = true) ∧
    ((compileRegex ['*'] = [RTok.star] ∧
      ∀ c rest, c ≠ '*' →
        compileRegex ('*' :: c :: rest) = RTok.star :: compileRegex (c :: rest)) ∧
      ∀ ts s, tokMatch (RTok.star :: ts) s = true ↔
        ∃ a b, s = a ++ b ∧ (∀ c ∈ a, c ≠ '/') ∧ tokMatch ts b = true) ∧
    (∀ rest, compileRegex ('?' :: rest) = RTok.qmark :: compileRegex rest) ∧
    (∀ ts s, tokMatch (RTok.qmark :: ts) s = true ↔
        ∃ c b, s = c :: b ∧ c ≠ '/' ∧ tokMatch ts b = true) ∧
    (∀ c rest, compileRegex ('\\' :: c :: rest) = RTok.lit c :: compileRegex rest) ∧
    (∀ c, c ∈ ['.', '(', ')', '+', '|', '^', '$'] →
        ∀ rest, compileRegex (c :: rest) = RTok.lit c :: compileRegex rest) ∧
    (∀ c ts s, tokMatch (RTok.lit c :: ts) s = true ↔
        ∃ b, s = c :: b ∧ tokMatch ts b = true) ∧
    (∀ rest, patternToRegex ('[' :: rest) = GTok.lbrack :: patternToRegex rest) ∧
    (∀ rest, patternToRegex (']' :: rest) = GTok.rbrack :: patternToRegex rest) ∧
    (∀ cs ts d ds,
        tokMatch (RTok.cls cs :: ts) (d :: ds) = (cs.contains d && tokMatch ts ds)) := by
  refine ⟨fun rest => rfl, tokMatch_optdirs_iff, ⟨rfl, ?_⟩,
    ⟨⟨rfl, ?_⟩, tokMatch_star_iff⟩, fun rest => rfl, tokMatch_qmark_iff,
    fun c rest => rfl, ?_, tokMatch_lit_iff, fun rest => rfl, fun rest => rfl,
    fun cs ts d ds => rfl⟩
  · intro s
    simp only [tokMatch, List.any_eq_true]
    refine ⟨[], (List.mem_tails [] s).2 ⟨s, by simp⟩, rfl⟩
  · intro c rest hc
    unfold compileRegex
    rw [patternToRegex.eq_def]
    split
    all_goals try simp_all [reGroup]
    all_goals (rename_i heq; exact absurd heq.1.symm (by assumption))
  · intro c hc rest
    simp only [List.mem_cons, List.not_mem_nil, or_false] at hc
    rcases hc with rfl | rfl | rfl | rfl | rfl | rfl | rfl <;> rfl

/-- Witness for C8 (amended), at concrete inputs: a bare `**` matches a
slash-containing string, and a literal `.` is escaped. -/
theorem C8_witness :
    tokMatch [RTok.dstar] "a/b".data = true ∧
    compileRegex ('.' :: "py".data) = RTok.lit '.' :: compileRegex "py".data := by
  constructor
  · exact C8_glob_regex_translation_amended.2.2.1.2 "a/b".data
  · exact C8_glob_regex_translation_amended.2.2.2.2.2.2.2.1 '.' (by decide) "py".data

/-! ## C2, C5, C7: cache lookup -/

/-- Decoding inverts encoding: a persisted entry written by `_save_entry`
parses back to itself. -/
theorem parseEntry_encodeEntry (e : CacheEntry) : parseEntry (encodeEntry e) = some e := by
  cases e; rfl

/-- **C2.** `CacheEntry.matches` reports the first differing key component in
the fixed priority order source hash, prompt hash, backend id, tool version
(so a key differing in exactly one component is reported as exactly that
component), and `Cache.get` / `Cache.check_status` return that reason
verbatim whenever a persisted entry is present but stale. -/
theorem C2_staleness_reason_priority :
    (∀ (e : CacheEntry) (k : CacheKey), e.source_hash ≠ k.source_hash →
        e.matches k = (false, some "source_changed")) ∧
    (∀ (e : CacheEntry) (k : CacheKey), e.source_hash = k.source_hash →
        e.prompt_hash ≠ k.prompt_hash →
        e.matches k = (false, some "prompt_changed")) ∧
    (∀ (e : CacheEntry) (k : CacheKey), e.source_hash = k.source_hash →
        e.prompt_hash = k.prompt_hash → e.backend_id ≠ k.backend_id →
        e.matches k = (false, some "backend_changed")) ∧
    (∀ (e : CacheEntry) (k : CacheKey), e.source_hash = k.source_hash →
        e.prompt_hash = k.prompt_hash → e.backend_id = k.backend_id →
        e.tool_version ≠ k.tool_version →
        e.matches k = (false, some "tool_changed")) ∧
    (∀ (st : CacheState) (path a b c d : String) (e : CacheEntry),
        loadEntry st.store path = some e →
        (e.matches ⟨a, b, c, d⟩).1 = false →
        (Cache.get st path a b c d).1.cache_hit = false ∧
        (Cache.get st path a b c d).1.staleness_reason = (e.matches ⟨a, b, c, d⟩).2 ∧
        (Cache.check_status st path a b c d).is_stale = true ∧
        (Cache.check_status st path a b c d).staleness_reason = (e.matches ⟨a, b, c, d⟩).2) := by
  refine ⟨?_, ?_, ?_, ?_, ?_⟩
  · intro e k h; simp [CacheEntry.matches, h]
  · intro e k h1 h2; simp [CacheEntry.matches, h1, h2]
  · intro e k h1 h2 h3; simp [CacheEntry.matches, h1, h2, h3]
  · intro e k h1 h2 h3 h4; simp [CacheEntry.matches, h1, h2, h3, h4]
  · intro st path a b c d e hload hfalse
    rcases hmr : e.matches ⟨a, b, c, d⟩ with ⟨m, reason⟩
    rw [hmr] at hfalse
    simp only at hfalse
    subst hfalse
    simp [Cache.get, Cache.check_status, hload, hmr]

/-- Witness for C2: an entry whose key differs only in the prompt hash is
reported as `prompt_changed` by `get`. -/
theorem C2_witness :
    (Cache.get
        ⟨fun p => if p = "a.py" then
            some (encodeEntry ⟨"a.py", "s", "p", "b", "t", [("k", "v")], "ts", 3⟩)
          else none, {}⟩
        "a.py" "s" "p2" "b" "t").1.staleness_reason = some "prompt_changed" := by
  have h5 := C2_staleness_reason_priority.2.2.2.2
    ⟨fun p => if p = "a.py" then
        some (encodeEntry ⟨"a.py", "s", "p", "b", "t", [("k", "v")], "ts", 3⟩)
      else none, {}⟩
    "a.py" "s" "p2" "b" "t" ⟨"a.py", "s", "p", "b", "t", [("k", "v")], "ts", 3⟩
    (by decide) (by decide)
  rw [h5.2.1]
  decide

/-- **C5.** `put` followed immediately by `get` with the identical key on the
same cache returns a hit carrying exactly the stored artifact. -/
theorem C5_put_then_get_hits (st : CacheState)
    (path source_hash prompt_hash backend_id tool_version : String)
    (summary : Summary) (approx_tokens : Int) (now : String) :
    (Cache.get
        (Cache.put st path source_hash prompt_hash backend_id tool_version
          summary approx_tokens now)
        path source_hash prompt_hash backend_id tool_version).1 =
      { cache_hit := true, summary := some summary } := by
  unfold Cache.get Cache.put loadEntry
  simp [parseEntry_encodeEntry, CacheEntry.matches]

/-- **C7.** A persisted entry that fails to parse is treated exactly like an
absent one: `get` reports a miss with reason `not_cached` (and
`check_status` agrees); the embedding is total, so nothing is raised. -/
theorem C7_corrupt_entry_not_cached (st : CacheState)
    (path source_hash prompt_hash backend_id tool_version : String) (fd : FileData)
    (hstore : st.store path = some fd) (hparse : parseEntry fd = none) :
    (Cache.get st path source_hash prompt_hash backend_id tool_version).1 =
      { cache_hit := false, staleness_reason := some "not_cached", is_stale := true } ∧
    Cache.check_status st path source_hash prompt_hash backend_id tool_version =
      ⟨true, some "not_cached"⟩ := by
  have hload : loadEntry st.store path = none := by
    unfold loadEntry
    rw [hstore]
    exact hparse
  constructor <;> simp [Cache.get, Cache.check_status, hload]

/-- Witness for C7: a non-JSON cache file, and a JSON object missing the
required fields, both make `get` report `not_cached`. -/
theorem C7_witness :
    (Cache.get ⟨fun p => if p = "a.py" then some FileData.notJson else none, {}⟩
        "a.py" "s" "p" "b" "t").1 =
      { cache_hit := false, staleness_reason := some "not_cached", is_stale := true } ∧
    (Cache.get
        ⟨fun p => if p = "b.py" then some (FileData.obj [("path", "b.py")] none none)
          else none, {}⟩
        "b.py" "s" "p" "b" "t").1 =
      { cache_hit := false, staleness_reason := some "not_cached", is_stale := true } := by
  constructor
  · exact (C7_corrupt_entry_not_cached
      ⟨fun p => if p = "a.py" then some FileData.notJson else none, {}⟩
      "a.py" "s" "p" "b" "t" FileData.notJson (by decide) (by decide)).1
  · exact (C7_corrupt_entry_not_cached
      ⟨fun p => if p = "b.py" then some (FileData.obj [("path", "b.py")] none none)
        else none, {}⟩
      "b.py" "s" "p" "b" "t" (FileData.obj [("path", "b.py")] none none)
      (by decide) (by decide)).1

/-! ## Lemmas about sorting, dedup and the rename loop -/

theorem mem_insertSorted (x : String) (l : List String) (a : String) :
    a ∈ insertSorted x l ↔ a = x ∨ a ∈ l := by
  induction l with
  | nil => simp [insertSorted]
  | cons y ys ih =>
    unfold insertSorted
    by_cases h : strLt y x = true
    · simp only [h, if_true, List.mem_cons, ih]
      tauto
    · simp [h, List.mem_cons]

theorem mem_sortStrings (l : List String) (a : String) :
    a ∈ sortStrings l ↔ a ∈ l := by
  induction l with
  | nil => simp [sortStrings]
  | cons x xs ih => simp [sortStrings, mem_insertSorted, ih]

theorem length_insertSorted (x : String) (l : List String) :
    (insertSorted x l).length = l.length + 1 := by
  induction l with
  | nil => rfl
  | cons y ys ih =>
    unfold insertSorted
    by_cases h : strLt y x = true
    · simp [h, ih]
    · simp [h]

theorem length_sortStrings (l : List String) :
    (sortStrings l).length = l.length := by
  induction l with
  | nil => rfl
  | cons x xs ih => simp [sortStrings, length_insertSorted, ih]

theorem mem_dedupAcc (l : List String) : ∀ (seen : List String) (a : String),
    a ∈ dedupAcc seen l ↔ a ∈ l ∧ a ∉ seen := by
  induction l with
  | nil => intro seen a; simp [dedupAcc]
  | cons x xs ih =>
    intro seen a
    unfold dedupAcc
    by_cases h : x ∈ seen
    · rw [if_pos h, ih]
      constructor
      · rintro ⟨hx, hs⟩
        exact ⟨List.mem_cons_of_mem x hx, hs⟩
      · rintro ⟨hx, hs⟩
        rcases List.mem_cons.1 hx with rfl | hx
        · exact absurd h hs
        · exact ⟨hx, hs⟩
    · rw [if_neg h, List.mem_cons, ih]
      constructor
      · rintro (rfl | ⟨hx, hs⟩)
        · exact ⟨List.mem_cons_self a xs, h⟩
        · exact ⟨List.mem_cons_of_mem x hx,
            fun hc => hs (List.mem_cons_of_mem x hc)⟩
      · rintro ⟨hx, hs⟩
        rcases List.mem_cons.1 hx with rfl | hx
        · exact Or.inl rfl
        · by_cases hax : a = x
          · exact Or.inl hax
          · exact Or.inr ⟨hx, fun hc => (List.mem_cons.1 hc).elim hax hs⟩

theorem nodup_dedupAcc (l : List String) : ∀ seen, (dedupAcc seen l).Nodup := by
  induction l with
  | nil => intro seen; simp [dedupAcc]
  | cons x xs ih =>
    intro seen
    unfold dedupAcc
    by_cases h : x ∈ seen
    · rw [if_pos h]; exact ih seen
    · rw [if_neg h, List.nodup_cons]
      exact ⟨fun hc => ((mem_dedupAcc xs (x :: seen) x).1 hc).2
        (List.mem_cons_self x seen), ih _⟩

theorem mem_dedup (l : List String) (a : String) : a ∈ dedup l ↔ a ∈ l := by
  unfold dedup; rw [mem_dedupAcc]; simp

theorem mem_addedSet (prev : BuildManifest) (cur_files : List FileRec) (p : String) :
    p ∈ addedSet prev cur_files ↔
      p ∈ pathsOf cur_files ∧ p ∉ pathsOf prev.files := by
  simp [addedSet, List.mem_filter]

theorem mem_deletedSet (prev : BuildManifest) (cur_files : List FileRec) (p : String) :
    p ∈ deletedSet prev cur_files ↔
      p ∈ pathsOf prev.files ∧ p ∉ pathsOf cur_files := by
  simp [deletedSet, List.mem_filter]

theorem nodup_deletedSet (prev : BuildManifest) (cur_files : List FileRec) :
    (deletedSet prev cur_files).Nodup :=
  (nodup_dedupAcc _ []).filter _

/-- Every rename pair recorded by the loop has consumed its old path into
`matched_deleted` and its new path into `matched_added`. -/
def AccInv (acc : RenameAcc) : Prop :=
  ∀ pr ∈ acc.renamed, pr.1 ∈ acc.matched_deleted ∧ pr.2 ∈ acc.matched_added

theorem accInv_step (curH dbh : String → Option String) (ap : String)
    (acc : RenameAcc) (h : AccInv acc) : AccInv (renameStep curH dbh acc ap) := by
  unfold renameStep
  split
  · exact h
  · split
    · exact h
    · split
      · exact h
      · intro pr hpr
        rcases List.mem_append.1 hpr with hpr | hpr
        · obtain ⟨h1, h2⟩ := h pr hpr
          exact ⟨List.mem_append_left _ h1, List.mem_append_left _ h2⟩
        · rcases List.mem_singleton.1 hpr with rfl
          exact ⟨List.mem_append_right _ (List.mem_singleton.2 rfl),
            List.mem_append_right _ (List.mem_singleton.2 rfl)⟩

theorem accInv_foldl (curH dbh : String → Option String) (l : List String) :
    ∀ acc, AccInv acc → AccInv (l.foldl (renameStep curH dbh) acc) := by
  induction l with
  | nil => intro acc h; exact h
  | cons x xs ih => intro acc h; exact ih _ (accInv_step curH dbh x acc h)

theorem accInv_renameAccOf (prev : BuildManifest) (cur_files : List FileRec)
    (dbh : String → Option String) : AccInv (renameAccOf prev cur_files dbh) := by
  unfold renameAccOf
  exact accInv_foldl _ _ _ _ (by intro pr hpr; cases hpr)

/-- A legitimate iteration order has exactly the members of the deleted
set. -/
theorem isDelOrder_mem {prev : BuildManifest} {cur_files : List FileRec}
    {delOrder : List String} (h : IsDelOrder prev cur_files delOrder) (p : String) :
    p ∈ delOrder ↔ p ∈ deletedSet prev cur_files := by
  rw [← mem_sortStrings delOrder p, h.2, mem_sortStrings]

theorem nodup_eq_singleton {l : List String} {x : String}
    (hn : l.Nodup) (hx : x ∈ l) (hall : ∀ y ∈ l, y = x) : l = [x] := by
  cases l with
  | nil => cases hx
  | cons a as =>
    have ha : a = x := hall a (List.mem_cons_self a as)
    subst ha
    cases as with
    | nil => rfl
    | cons b bs =>
      have hb : b = a := hall b (List.mem_cons_of_mem a (List.mem_cons_self b bs))
      rw [List.nodup_cons] at hn
      exact absurd (hb ▸ List.mem_cons_self b bs) hn.1

/-- The `deleted_by_hash` dictionary does not depend on the set's iteration
order as long as no two deleted paths share a hash. -/
theorem deletedByHash_eq (prevH : String → Option String) (o1 o2 : List String)
    (hn1 : o1.Nodup) (hn2 : o2.Nodup)
    (hm : ∀ p, p ∈ o1 ↔ p ∈ o2)
    (hinj : ∀ p ∈ o1, ∀ q ∈ o1, prevH p = prevH q → p = q) :
    deletedByHash o1 prevH = deletedByHash o2 prevH := by
  funext h
  unfold deletedByHash
  have hmem : ∀ p, (p ∈ o1.filter (fun q => prevH q == some h) ↔
      p ∈ o2.filter (fun q => prevH q == some h)) := by
    intro p
    simp only [List.mem_filter]
    rw [hm p]
  have huniq : ∀ p ∈ o1.filter (fun q => prevH q == some h),
      ∀ q ∈ o1.filter (fun q => prevH q == some h), p = q := by
    intro p hp q hq
    apply hinj p (List.mem_of_mem_filter hp) q (List.mem_of_mem_filter hq)
    have hp' := (List.mem_filter.1 hp).2
    have hq' := (List.mem_filter.1 hq).2
    rw [beq_iff_eq] at hp' hq'
    rw [hp', hq']
  cases hc1 : o1.filter (fun q => prevH q == some h) with
  | nil =>
    have hc2 : o2.filter (fun q => prevH q == some h) = [] := by
      cases hc2 : o2.filter (fun q => prevH q == some h) with
      | nil => rfl
      | cons y ys =>
        have hy := (hmem y).2 (hc2 ▸ List.mem_cons_self y ys)
        rw [hc1] at hy
        cases hy
    rw [hc2]
  | cons x xs =>
    have hx1 : x ∈ o1.filter (fun q => prevH q == some h) :=
      hc1 ▸ List.mem_cons_self x xs
    have h1 : o1.filter (fun q => prevH q == some h) = [x] :=
      nodup_eq_singleton (hn1.filter _) hx1 (fun y hy => huniq y hy x hx1)
    have h2 : o2.filter (fun q => prevH q == some h) = [x] :=
      nodup_eq_singleton (hn2.filter _) ((hmem x).1 hx1)
        (fun y hy => huniq y ((hmem y).2 hy) x hx1)
    rw [hc1.symm.trans h1, h2]

/-! ## C3, C4, C6: the manifest diff -/

/-- Counterexample to C3 as stated: with two deleted paths sharing one
content hash, two legitimate iteration orders of the deleted-path set give
different ChangeSets (the retained rename candidate differs), so the output
is not bit-identical across runs. -/
theorem C3_counterexample :
    IsDelOrder ⟨1, "tv", "git", "ph", [⟨"a.py", "h"⟩, ⟨"b.py", "h"⟩]⟩ [⟨"c.py", "h"⟩]
      ["a.py", "b.py"] ∧
    IsDelOrder ⟨1, "tv", "git", "ph", [⟨"a.py", "h"⟩, ⟨"b.py", "h"⟩]⟩ [⟨"c.py", "h"⟩]
      ["b.py", "a.py"] ∧
    compute_changes ⟨1, "tv", "git", "ph", [⟨"a.py", "h"⟩, ⟨"b.py", "h"⟩]⟩
        [⟨"c.py", "h"⟩] "ch" "git" ["a.py", "b.py"] ≠
      compute_changes ⟨1, "tv", "git", "ph", [⟨"a.py", "h"⟩, ⟨"b.py", "h"⟩]⟩
        [⟨"c.py", "h"⟩] "ch" "git" ["b.py", "a.py"] := by
  decide

/-- **C3 (amended).** For every pair of snapshots, the diff is independent of
the iteration order of the deleted-path set — hence bit-identical across
runs — **provided no two deleted paths share a content hash**; when two
deleted paths do share a hash, only one is retained as the rename candidate,
by set-iteration order, and the renamed pairing may differ across runs. -/
theorem C3_amended_deterministic_when_hashes_distinct
    (prev : BuildManifest) (cur_files : List FileRec)
    (cur_scan_hash cur_ignore_mode : String) (o1 o2 : List String)
    (h1 : IsDelOrder prev cur_files o1) (h2 : IsDelOrder prev cur_files o2)
    (hinj : ∀ p ∈ deletedSet prev cur_files, ∀ q ∈ deletedSet prev cur_files,
        dictOf prev.files p = dictOf prev.files q → p = q) :
    compute_changes prev cur_files cur_scan_hash cur_ignore_mode o1 =
      compute_changes prev cur_files cur_scan_hash cur_ignore_mode o2 := by
  unfold compute_changes
  rw [deletedByHash_eq (dictOf prev.files) o1 o2 h1.1 h2.1
    (fun p => (isDelOrder_mem h1 p).trans (isDelOrder_mem h2 p).symm)
    (fun p hp q hq => hinj p ((isDelOrder_mem h1 p).1 hp) q
      ((isDelOrder_mem h1 q).1 hq))]

/-- Witness for C3 (amended): with distinct deleted hashes the two iteration
orders give the same ChangeSet. -/
theorem C3_witness :
    compute_changes ⟨1, "tv", "git", "ph", [⟨"a.py", "h1"⟩, ⟨"b.py", "h2"⟩]⟩ []
        "ch" "git" ["a.py", "b.py"] =
      compute_changes ⟨1, "tv", "git", "ph", [⟨"a.py", "h1"⟩, ⟨"b.py", "h2"⟩]⟩ []
        "ch" "git" ["b.py", "a.py"] :=
  C3_amended_deterministic_when_hashes_distinct
    ⟨1, "tv", "git", "ph", [⟨"a.py", "h1"⟩, ⟨"b.py", "h2"⟩]⟩ []
    "ch" "git" ["a.py", "b.py"] ["b.py", "a.py"]
    (by decide) (by decide) (by decide)

/-- **C4.** The four partitions of a ChangeSet are disjoint: no path is in
more than one of added/modified/deleted, and a renamed pair's old path is
not in the deleted list nor its new path in the added list — for every pair
of snapshots and every iteration order of the deleted-path set. -/
theorem C4_partitions_disjoint (prev : BuildManifest) (cur_files : List FileRec)
    (cur_scan_hash cur_ignore_mode : String) (delOrder : List String) :
    (∀ p, p ∈ (compute_changes prev cur_files cur_scan_hash cur_ignore_mode delOrder).added →
        p ∉ (compute_changes prev cur_files cur_scan_hash cur_ignore_mode delOrder).modified) ∧
    (∀ p, p ∈ (compute_changes prev cur_files cur_scan_hash cur_ignore_mode delOrder).added →
        p ∉ (compute_changes prev cur_files cur_scan_hash cur_ignore_mode delOrder).deleted) ∧
    (∀ p, p ∈ (compute_changes prev cur_files cur_scan_hash cur_ignore_mode delOrder).modified →
        p ∉ (compute_changes prev cur_files cur_scan_hash cur_ignore_mode delOrder).deleted) ∧
    (∀ pr ∈ (compute_changes prev cur_files cur_scan_hash cur_ignore_mode delOrder).renamed,
        pr.1 ∉ (compute_changes prev cur_files cur_scan_hash cur_ignore_mode delOrder).deleted ∧
        pr.2 ∉ (compute_changes prev cur_files cur_scan_hash cur_ignore_mode delOrder).added) := by
  have hA : ∀ p,
      p ∈ (compute_changes prev cur_files cur_scan_hash cur_ignore_mode delOrder).added ↔
      (p ∈ pathsOf cur_files ∧ p ∉ pathsOf prev.files) ∧
        p ∉ (renameAccOf prev cur_files
          (deletedByHash delOrder (dictOf prev.files))).matched_added := by
    intro p
    simp [compute_changes, computeChangesWith, mem_sortStrings, List.mem_filter,
      mem_addedSet, addedSet, and_assoc]
  have hD : ∀ p,
      p ∈ (compute_changes prev cur_files cur_scan_hash cur_ignore_mode delOrder).deleted ↔
      (p ∈ pathsOf prev.files ∧ p ∉ pathsOf cur_files) ∧
        p ∉ (renameAccOf prev cur_files
          (deletedByHash delOrder (dictOf prev.files))).matched_deleted := by
    intro p
    simp [compute_changes, computeChangesWith, mem_sortStrings, List.mem_filter,
      mem_deletedSet, deletedSet, and_assoc]
    tauto
  have hM : ∀ p,
      p ∈ (compute_changes prev cur_files cur_scan_hash cur_ignore_mode delOrder).modified →
      p ∈ pathsOf prev.files ∧ p ∈ pathsOf cur_files := by
    intro p hp
    simp [compute_changes, computeChangesWith, mem_sortStrings, List.mem_filter] at hp
    tauto
  have hR : ∀ pr ∈ (compute_changes prev cur_files cur_scan_hash cur_ignore_mode delOrder).renamed,
      pr.1 ∈ (renameAccOf prev cur_files
        (deletedByHash delOrder (dictOf prev.files))).matched_deleted ∧
      pr.2 ∈ (renameAccOf prev cur_files
        (deletedByHash delOrder (dictOf prev.files))).matched_added :=
    fun pr hpr =>
      accInv_renameAccOf prev cur_files (deletedByHash delOrder (dictOf prev.files)) pr hpr
  refine ⟨?_, ?_, ?_, ?_⟩
  · intro p hp hq
    exact ((hA p).1 hp).1.2 (hM p hq).1
  · intro p hp hq
    exact ((hA p).1 hp).1.2 ((hD p).1 hq).1.1
  · intro p hp hq
    exact ((hD p).1 hq).1.2 (hM p hp).2
  · intro pr hpr
    obtain ⟨hold, hnew⟩ := hR pr hpr
    constructor
    · intro hq
      exact ((hD pr.1).1 hq).2 hold
    · intro hq
      exact ((hA pr.2).1 hq).2 hnew

/-- Witness for C4 at a concrete diff: the rename pair consumed its old path
from deleted and its new path from added. -/
theorem C4_witness :
    ("a.py", "b.py").1 ∉ (compute_changes ⟨1, "tv", "git", "ph", [⟨"a.py", "h1"⟩]⟩
        [⟨"b.py", "h1"⟩] "ch" "git" ["a.py"]).deleted ∧
    ("a.py", "b.py").2 ∉ (compute_changes ⟨1, "tv", "git", "ph", [⟨"a.py", "h1"⟩]⟩
        [⟨"b.py", "h1"⟩] "ch" "git" ["a.py"]).added :=
  (C4_partitions_disjoint ⟨1, "tv", "git", "ph", [⟨"a.py", "h1"⟩]⟩
    [⟨"b.py", "h1"⟩] "ch" "git" ["a.py"]).2.2.2 ("a.py", "b.py") (by decide)

/-- **C6.** For the previous snapshot `a.py ↦ h1` and the current snapshot
`b.py ↦ h1`, every run of the diff reports the rename pair
`(a.py, b.py)` with empty added and deleted lists. -/
theorem C6_rename_detected (delOrder : List String)
    (h : IsDelOrder ⟨1, "tv", "git", "ph", [⟨"a.py", "h1"⟩]⟩ [⟨"b.py", "h1"⟩] delOrder) :
    (compute_changes ⟨1, "tv", "git", "ph", [⟨"a.py", "h1"⟩]⟩ [⟨"b.py", "h1"⟩]
        "ch" "git" delOrder).renamed = [("a.py", "b.py")] ∧
    (compute_changes ⟨1, "tv", "git", "ph", [⟨"a.py", "h1"⟩]⟩ [⟨"b.py", "h1"⟩]
        "ch" "git" delOrder).added = [] ∧
    (compute_changes ⟨1, "tv", "git", "ph", [⟨"a.py", "h1"⟩]⟩ [⟨"b.py", "h1"⟩]
        "ch" "git" delOrder).deleted = [] := by
  have hd : delOrder = ["a.py"] := by
    obtain ⟨hn, hs⟩ := h
    have hs1 : sortStrings delOrder = ["a.py"] := by
      rw [hs]; decide
    have hlen : delOrder.length = 1 := by
      have hl := length_sortStrings delOrder
      rw [hs1] at hl
      simpa using hl.symm
    cases delOrder with
    | nil => simp at hlen
    | cons x xs =>
      cases xs with
      | nil =>
        have hx : x = "a.py" := by
          simp [sortStrings, insertSorted] at hs1
          exact hs1
        rw [hx]
      | cons y ys => simp at hlen
  subst hd
  exact ⟨by decide, by decide, by decide⟩

/-- Witness for C6 at the only iteration order of the singleton deleted
set. -/
theorem C6_witness :
    (compute_changes ⟨1, "tv", "git", "ph", [⟨"a.py", "h1"⟩]⟩ [⟨"b.py", "h1"⟩]
        "ch" "git" ["a.py"]).renamed = [("a.py", "b.py")] ∧
    (compute_changes ⟨1, "tv", "git", "ph", [⟨"a.py", "h1"⟩]⟩ [⟨"b.py", "h1"⟩]
        "ch" "git" ["a.py"]).added = [] ∧
    (compute_changes ⟨1, "tv", "git", "ph", [⟨"a.py", "h1"⟩]⟩ [⟨"b.py", "h1"⟩]
        "ch" "git" ["a.py"]).deleted = [] :=
  C6_rename_detected ["a.py"] (by decide)

/-! ## C10: clear() also removes the persisted manifest -/

/-- After `save_manifest`, the manifest file is in the directory. -/
theorem manifest_mem_save (dirFiles : List String) :
    MANIFEST_FILENAME ∈ save_manifest_names dirFiles := by
  unfold save_manifest_names
  by_cases h : MANIFEST_FILENAME ∈ dirFiles
  · simp [h]
  · simp [h]

/-- **C10.** Once a build manifest has been saved into the cache directory,
`clear()` deletes it too (it counts toward the returned number of removed
entries, being one of the `*.json` matches), a subsequent `load_manifest`
returns `None`, and more generally `clear()` removes every `*.json` file in
the directory, not only cache entries. -/
theorem C10_clear_removes_manifest (dirFiles : List String) :
    MANIFEST_FILENAME ∉ (Cache.clear (save_manifest_names dirFiles)).2 ∧
    (∀ read, load_manifest_from (Cache.clear (save_manifest_names dirFiles)).2 read = none) ∧
    MANIFEST_FILENAME ∈ (save_manifest_names dirFiles).filter matchesJsonGlob ∧
    (Cache.clear (save_manifest_names dirFiles)).1 =
      ((save_manifest_names dirFiles).filter matchesJsonGlob).length ∧
    (∀ n ∈ save_manifest_names dirFiles, matchesJsonGlob n = true →
        n ∉ (Cache.clear (save_manifest_names dirFiles)).2) := by
  have hglob : matchesJsonGlob MANIFEST_FILENAME = true := by decide
  have hgen : ∀ n ∈ save_manifest_names dirFiles, matchesJsonGlob n = true →
      n ∉ (Cache.clear (save_manifest_names dirFiles)).2 := by
    intro n _ hn hc
    have := (List.mem_filter.1 hc).2
    simp [hn] at this
  have hnm : MANIFEST_FILENAME ∉ (Cache.clear (save_manifest_names dirFiles)).2 :=
    hgen MANIFEST_FILENAME (manifest_mem_save dirFiles) hglob
  refine ⟨hnm, ?_, ?_, rfl, hgen⟩
  · intro read
    simp [load_manifest_from, hnm]
  · exact List.mem_filter.2 ⟨manifest_mem_save dirFiles, hglob⟩

/-- Witness for C10 on a concrete directory holding one cache entry, one
non-JSON file and the saved manifest. -/
theorem C10_witness :
    MANIFEST_FILENAME ∉ (Cache.clear (save_manifest_names ["abc.json", "notes.txt"])).2 ∧
    load_manifest_from (Cache.clear (save_manifest_names ["abc.json", "notes.txt"])).2
      (fun _ => none) = none ∧
    "abc.json" ∉ (Cache.clear (save_manifest_names ["abc.json", "notes.txt"])).2 :=
  ⟨(C10_clear_removes_manifest ["abc.json", "notes.txt"]).1,
   (C10_clear_removes_manifest ["abc.json", "notes.txt"]).2.1 (fun _ => none),
   (C10_clear_removes_manifest ["abc.json", "notes.txt"]).2.2.2.2 "abc.json"
     (by decide) (by decide)⟩

end CddContext
